import Mathlib

/-!
Verification of the esplora_auth_proxy reverse proxy (src/main.rs).

The development shallowly embeds the two core components:

* the token authenticator `AppState::bearer` (src/main.rs lines 45-106),
  modelled as the pure function `bearer` over an explicit cache, explicit
  clock readings and an oracle describing the outcome of the outbound
  token request;
* the request handler `proxy` (src/main.rs lines 125-216), modelled as the
  pure function `proxy` over oracles for the inbound body read, the bearer
  acquisition and the upstream call.

Time is modelled by natural-number instants (`Instant` in the source);
durations are naturals measured in seconds.  `expires_in.max(60)` and
`saturating_sub(10)` become `Nat.max` and truncated `Nat` subtraction,
which is saturating by definition.

For the single-flight claim, a separate interleaved transition system
(`CState`, `stepThread`) models N concurrent tasks executing the body of
`AppState::bearer` against the shared `RwLock`-guarded cache and the
dedicated `refresh_lock` mutex, at a fixed instant.
-/

deriving instance DecidableEq for Except

/-- `TokenResp` (src/main.rs lines 38-42): the decoded JSON body of a
successful token-endpoint response. -/
structure TokenResp where
  access_token : String
  expires_in : Nat
deriving DecidableEq, Repr

/-- `CachedToken` (src/main.rs lines 32-36): the cached bearer header value
together with the absolute instant after which it must not be used. -/
structure CachedToken where
  header_value : String
  valid_until : Nat
deriving DecidableEq, Repr

/-- The freshness test performed at src/main.rs lines 46-50 and 54-58:
a cached token is usable iff `now + leeway < valid_until`.  An absent
token is never usable. -/
def tokenFresh (leeway now : Nat) (cache : Option CachedToken) : Bool :=
  match cache with
  | some t => decide (now + leeway < t.valid_until)
  | none => false

/-- Outcome of `self.http.post(&self.token_url).form(&form).send().await`
followed by the body decode `r.json::<TokenResp>()` (src/main.rs lines
68-75).  `ok status parse` is reqwest's `Ok(r)` with the HTTP status and,
for a success status, the result of parsing the body; `err msg` is
reqwest's `Err(e)` rendered as a message.  The network and the JSON
decoder are external collaborators, so their combined outcome is an
oracle input. -/
inductive SendResult where
  | ok (status : Nat) (parse : Except String TokenResp)
  | err (msg : String)
deriving DecidableEq, Repr

/-- `StatusCode::is_success`: a 2xx status. -/
def statusIsSuccess (s : Nat) : Bool :=
  decide (200 ≤ s) && decide (s < 300)

/-- The error type the spec names `AuthError`.  The source renders each
variant into the `Result<_, String>` error channel; `renderAuthError`
below gives the exact rendering. -/
inductive AuthError where
  | tokenHttpStatus (status : Nat)
  | tokenTransport (msg : String)
  | tokenDecode (msg : String)
deriving DecidableEq, Repr

/-- The strings produced at src/main.rs lines 74, 99 and 103:
`format!("token json {e}")`, `format!("token status {}", r.status())` and
`format!("token http err: {e}")`.  The `Display` of a status code is
rendered here by its numeric code (the library also appends the canonical
reason phrase; no claim depends on that suffix). -/
def renderAuthError : AuthError → String
  | .tokenHttpStatus status => "token status " ++ toString status
  | .tokenTransport msg => "token http err: " ++ msg
  | .tokenDecode msg => "token json " ++ msg

/-- The observable outcome of one call to `AppState::bearer`:
the returned `Result`, the cache cell content after the call, whether the
`refresh_lock` was acquired, and whether an outbound token request was
issued. -/
structure BearerResult where
  result : Except String String
  cache : Option CachedToken
  lockAcquired : Bool
  netCalled : Bool
deriving DecidableEq, Repr

/-- The refresh performed under the `refresh_lock` (src/main.rs lines
60-105): the `match resp` on the outcome of the outbound token request.
On `Ok(r)` with a success status the body is parsed; a parse success
stores the new `CachedToken` (replacing the cell content) and returns its
`header_value`; every failure leaves the cache untouched and yields the
rendered error string. -/
def refreshToken (nowR : Nat) (cache : Option CachedToken)
    (net : SendResult) : BearerResult :=
  match net with
  | .ok status parse =>
    if statusIsSuccess status then
      match parse with
      | .ok tr =>
        let ttl := Nat.max tr.expires_in 60
        let valid_until := nowR + (ttl - 10)
        let header_value := "Bearer " ++ tr.access_token
        ⟨.ok header_value, some ⟨header_value, valid_until⟩, true, true⟩
      | .error e => ⟨.error ("token json " ++ e), cache, true, true⟩
    else
      ⟨.error ("token status " ++ toString status), cache, true, true⟩
  | .err e => ⟨.error ("token http err: " ++ e), cache, true, true⟩

/-- `AppState::bearer` (src/main.rs lines 45-106), one sequential call.

`now0` is the `Instant::now()` of the lock-free fast-path check (line 47),
`now1` the one of the re-check under the `refresh_lock` (line 55), `nowR`
the one taken after the token response arrives when computing
`valid_until` (line 77).  `cache` is the content of the shared
`RwLock<Option<CachedToken>>` on entry and `net` the outcome of the
outbound token request.  The fast path returns the cached `header_value`
without acquiring the `refresh_lock` and without a request; otherwise the
lock is acquired, the cache re-checked, and only on a second miss is the
refresh performed. -/
def bearer (leeway now0 now1 nowR : Nat) (cache : Option CachedToken)
    (net : SendResult) : BearerResult :=
  match cache with
  | some t =>
    if now0 + leeway < t.valid_until then
      ⟨.ok t.header_value, cache, false, false⟩
    else
      -- let _g = self.refresh_lock.lock().await; then re-check (lines 52-58)
      if now1 + leeway < t.valid_until then
        ⟨.ok t.header_value, cache, true, false⟩
      else
        refreshToken nowR cache net
  | none => refreshToken nowR cache net

/-- The request-side exclusion set (src/main.rs lines 160-163): hop-by-hop
headers plus the caller's `authorization` and the original `host`. -/
def requestExclusion : List String :=
  ["connection", "keep-alive", "proxy-authenticate", "proxy-authorization",
   "te", "trailer", "transfer-encoding", "upgrade", "authorization", "host"]

/-- The response-side exclusion set (src/main.rs lines 181-184): only the
hop-by-hop headers; `authorization` and `host` are not in it. -/
def responseExclusion : List String :=
  ["connection", "keep-alive", "proxy-authenticate", "proxy-authorization",
   "te", "trailer", "transfer-encoding", "upgrade"]

/-- Headers are modelled as association lists of name/value pairs, in
iteration order; `HeaderMap::append` keeps duplicates, so a list is the
right shape. -/
abbrev Headers := List (String × String)

/-- `u8::to_ascii_lowercase` on one character: ASCII upper-case letters
are shifted into lower case, every other character is unchanged. -/
def asciiLowerChar (c : Char) : Char :=
  if 65 ≤ c.toNat ∧ c.toNat ≤ 90 then Char.ofNat (c.toNat + 32) else c

/-- `str::to_ascii_lowercase` (src/main.rs lines 159 and 180): ASCII-only
lower-casing, character by character. -/
def asciiLower (s : String) : String :=
  String.mk (s.data.map asciiLowerChar)

/-- The copy loop at src/main.rs lines 157-165: every inbound header whose
ASCII-lower-cased name is in the request exclusion set is skipped, the
rest are appended unchanged. -/
def filterRequestHeaders (headers : Headers) : Headers :=
  headers.filter fun kv => !(requestExclusion.contains (asciiLower kv.1))

/-- The copy loop at src/main.rs lines 178-186 for the upstream response. -/
def filterResponseHeaders (headers : Headers) : Headers :=
  headers.filter fun kv => !(responseExclusion.contains (asciiLower kv.1))

/-- `HeaderMap::insert` (src/main.rs line 166): drops every existing entry
with the given (already lower-case) name and adds the single new pair.
Header names are case-insensitive, so matching is on the lower-cased
name. -/
def headerMapInsert (headers : Headers) (name value : String) : Headers :=
  headers.filter (fun kv => asciiLower kv.1 ≠ name) ++ [(name, value)]

/-- Byte validity test of `http::HeaderValue`: a byte is allowed iff it is
visible-or-space (32..126) or horizontal tab (9); byte 127 (DEL) and all
other control bytes are rejected.  Characters above 127 encode to UTF-8
bytes that are all ≥ 128, hence allowed, so the test lifts to characters. -/
def headerValueValidChar (c : Char) : Bool :=
  c.toNat == 9 || (decide (32 ≤ c.toNat) && c.toNat != 127)

/-- `HeaderValue::from_str` (used at src/main.rs line 166): succeeds iff
every character of the string is allowed in a header value. -/
def headerValueFromStr (s : String) : Option String :=
  if s.data.all headerValueValidChar then some s else none

/-- The outbound header set the handler passes to the upstream request
(src/main.rs lines 157-166), given that `HeaderValue::from_str` accepted
the bearer string: the filtered copy of the inbound headers, then
`insert("authorization", bearer)`. -/
def forwardHeaders (headers : Headers) (bearerValue : String) : Headers :=
  headerMapInsert (filterRequestHeaders headers) "authorization" bearerValue

/-- Upstream response as the handler observes it (src/main.rs lines
177-194): relayed status, response headers, and the outcome of reading
the full body (`resp.bytes()`), which can fail in transport. -/
structure UpstreamResp where
  status : Nat
  headers : Headers
  bodyBytes : Except String String
deriving DecidableEq, Repr

/-- Outcome of one `proxy` invocation: a relayed upstream response, an
error response `(status, message)` produced by the handler itself, or the
panic of the `unwrap()` at src/main.rs line 166. -/
inductive ProxyOut where
  | ok (status : Nat) (headers : Headers) (body : String)
  | errResp (status : Nat) (msg : String)
  | panicked
deriving DecidableEq, Repr

/-- `StatusCode::BAD_REQUEST`. -/
def BAD_REQUEST : Nat := 400

/-- `StatusCode::BAD_GATEWAY`. -/
def BAD_GATEWAY : Nat := 502

/-- The handler `proxy` (src/main.rs lines 125-216).

Oracle inputs stand for the external effects, in the order the handler
performs them: `bodyRead` is `body.collect().await` (line 148), `bearerRes`
the result of `st.bearer().await` (line 154), `send` the outcome of the
outbound request (lines 169-175) bundled with the later body read
(line 194).

* a body-read failure maps to `(BAD_REQUEST, e)` (line 150);
* a bearer failure maps to `(BAD_GATEWAY, e)` (line 154);
* `HeaderValue::from_str(&bearer).unwrap()` panics when the bearer string
  holds a byte not allowed in a header value (line 166);
* a send failure maps to `(BAD_GATEWAY, e)` (line 175);
* a failure reading the upstream body maps to `(BAD_GATEWAY, e)`
  (line 194);
* otherwise the upstream status, the filtered upstream headers and the
  unmodified body bytes are returned (line 215). -/
def proxy (headers : Headers) (bodyRead : Except String String)
    (bearerRes : Except String String) (send : Except String UpstreamResp) :
    ProxyOut :=
  match bodyRead with
  | .error e => .errResp BAD_REQUEST e
  | .ok _reqBytes =>
    match bearerRes with
    | .error e => .errResp BAD_GATEWAY e
    | .ok b =>
      match headerValueFromStr b with
      | none => .panicked
      | some bv =>
        let _out := forwardHeaders headers bv
        match send with
        | .error e => .errResp BAD_GATEWAY e
        | .ok u =>
          match u.bodyBytes with
          | .error e => .errResp BAD_GATEWAY e
          | .ok bodyBytes => .ok u.status (filterResponseHeaders u.headers) bodyBytes

/-! ## Helper lemmas about the refresh path -/

lemma refreshToken_netCalled (nowR : Nat) (cache : Option CachedToken)
    (net : SendResult) : (refreshToken nowR cache net).netCalled = true := by
  unfold refreshToken
  cases net with
  | ok status parse =>
    by_cases h : statusIsSuccess status = true
    · cases parse <;> simp [h]
    · simp [h]
  | err e => rfl

lemma refreshToken_lockAcquired (nowR : Nat) (cache : Option CachedToken)
    (net : SendResult) : (refreshToken nowR cache net).lockAcquired = true := by
  unfold refreshToken
  cases net with
  | ok status parse =>
    by_cases h : statusIsSuccess status = true
    · cases parse <;> simp [h]
    · simp [h]
  | err e => rfl

lemma tokenFresh_some_iff (leeway now : Nat) (t : CachedToken) :
    tokenFresh leeway now (some t) = true ↔ now + leeway < t.valid_until := by
  simp [tokenFresh]

/-! ## C4: stored validity window -/

/-- C4: on a successful refresh the stored window is
`max(expires_in, 60) - 10` seconds from the refresh instant `nowR`
(`Nat` subtraction is saturating); with `expires_in = 5` this is 50
seconds, not 5. -/
theorem claimC4 (leeway now0 now1 nowR : Nat) (cache : Option CachedToken)
    (status : Nat) (tr : TokenResp)
    (h0 : tokenFresh leeway now0 cache = false)
    (h1 : tokenFresh leeway now1 cache = false)
    (hs : statusIsSuccess status = true) :
    (bearer leeway now0 now1 nowR cache (.ok status (.ok tr))).cache =
      some ⟨"Bearer " ++ tr.access_token, nowR + (Nat.max tr.expires_in 60 - 10)⟩
    ∧ (tr.expires_in = 5 →
        (bearer leeway now0 now1 nowR cache (.ok status (.ok tr))).cache =
          some ⟨"Bearer " ++ tr.access_token, nowR + 50⟩) := by
  have hb : bearer leeway now0 now1 nowR cache (.ok status (.ok tr)) =
      refreshToken nowR cache (.ok status (.ok tr)) := by
    cases cache with
    | none => rfl
    | some t =>
      have h0' : ¬(now0 + leeway < t.valid_until) := by
        simpa [tokenFresh] using h0
      have h1' : ¬(now1 + leeway < t.valid_until) := by
        simpa [tokenFresh] using h1
      simp [bearer, h0', h1']
  constructor
  · rw [hb]; simp [refreshToken, hs]
  · intro h5
    rw [hb]; simp [refreshToken, hs, h5]

/-- Witness for C4 at `expires_in = 5`, empty cache, status 200. -/
theorem claimC4_witness :
    (bearer 20 0 0 100 none (.ok 200 (.ok ⟨"tok", 5⟩))).cache =
      some ⟨"Bearer tok", 150⟩ :=
  (claimC4 20 0 0 100 none 200 ⟨"tok", 5⟩ (by decide) (by decide)
    (by decide)).2 rfl

/-! ## C6: fast path -/

/-- C6: when the cache holds a token with `now0 + leeway < valid_until`,
the call returns the cached `header_value`, acquires no lock and issues
no network request, and leaves the cache unchanged. -/
theorem claimC6 (leeway now0 now1 nowR : Nat) (t : CachedToken)
    (net : SendResult) (h : now0 + leeway < t.valid_until) :
    bearer leeway now0 now1 nowR (some t) net =
      ⟨.ok t.header_value, some t, false, false⟩ := by
  simp [bearer, h]

/-- Witness for C6 on a concrete fresh token. -/
theorem claimC6_witness :
    bearer 20 0 0 0 (some ⟨"Bearer x", 100⟩) (.err "refused") =
      ⟨.ok "Bearer x", some ⟨"Bearer x", 100⟩, false, false⟩ :=
  claimC6 20 0 0 0 ⟨"Bearer x", 100⟩ (.err "refused") (by decide)

/-! ## C8: cached values are never served past validity -/

/-- C8: whenever a call returns a value without issuing a network request
(`netCalled = false`), that value is the cached `header_value` and the
freshness check `now + leeway < valid_until` held at the returning
check's instant (`now0` on the lock-free fast path, `now1` on the
post-lock re-check); in particular the token was strictly before
`valid_until` at that instant. -/
theorem claimC8 (leeway now0 now1 nowR : Nat) (cache : Option CachedToken)
    (net : SendResult) (v : String)
    (hnc : (bearer leeway now0 now1 nowR cache net).netCalled = false)
    (hok : (bearer leeway now0 now1 nowR cache net).result = .ok v) :
    ∃ t, cache = some t ∧ v = t.header_value ∧
      (((bearer leeway now0 now1 nowR cache net).lockAcquired = false ∧
          now0 + leeway < t.valid_until ∧ now0 < t.valid_until) ∨
       ((bearer leeway now0 now1 nowR cache net).lockAcquired = true ∧
          now1 + leeway < t.valid_until ∧ now1 < t.valid_until)) := by
  cases cache with
  | none =>
    rw [show bearer leeway now0 now1 nowR none net = refreshToken nowR none net
          from rfl] at hnc
    rw [refreshToken_netCalled] at hnc
    exact absurd hnc (by simp)
  | some t =>
    by_cases h0 : now0 + leeway < t.valid_until
    · refine ⟨t, rfl, ?_, ?_⟩
      · simp [bearer, h0] at hok
        exact hok.symm
      · left
        refine ⟨?_, h0, ?_⟩
        · simp [bearer, h0]
        · omega
    · by_cases h1 : now1 + leeway < t.valid_until
      · refine ⟨t, rfl, ?_, ?_⟩
        · simp [bearer, h0, h1] at hok
          exact hok.symm
        · right
          refine ⟨?_, h1, ?_⟩
          · simp [bearer, h0, h1]
          · omega
      · exfalso
        rw [show bearer leeway now0 now1 nowR (some t) net =
              refreshToken nowR (some t) net by simp [bearer, h0, h1]] at hnc
        rw [refreshToken_netCalled] at hnc
        exact absurd hnc (by simp)

/-- Witness for C8 on the fast path of a concrete fresh token. -/
theorem claimC8_witness :
    ∃ t, (some (CachedToken.mk "Bearer x" 100) = some t) ∧
      "Bearer x" = t.header_value ∧
      (((bearer 20 7 7 7 (some ⟨"Bearer x", 100⟩) (.err "e")).lockAcquired = false ∧
          7 + 20 < t.valid_until ∧ 7 < t.valid_until) ∨
       ((bearer 20 7 7 7 (some ⟨"Bearer x", 100⟩) (.err "e")).lockAcquired = true ∧
          7 + 20 < t.valid_until ∧ 7 < t.valid_until)) :=
  claimC8 20 7 7 7 (some ⟨"Bearer x", 100⟩) (.err "e") "Bearer x"
    (by decide) (by decide)

/-! ## C9: the three refresh failure modes -/

/-- Rendered errors of different variants never collide: the format
strings differ at character index 6 (`s`, `h`, `j`). -/
lemma renderHttp_ne_transport (s : Nat) (m : String) :
    renderAuthError (.tokenHttpStatus s) ≠ renderAuthError (.tokenTransport m) := by
  intro h
  have h6 := congrArg (fun u => u.data[6]?) h
  simp only [renderAuthError] at h6
  rw [String.data_append, List.getElem?_append, String.data_append,
    List.getElem?_append] at h6
  norm_num at h6
  exact absurd h6 (by decide)

lemma renderHttp_ne_decode (s : Nat) (m : String) :
    renderAuthError (.tokenHttpStatus s) ≠ renderAuthError (.tokenDecode m) := by
  intro h
  have h6 := congrArg (fun u => u.data[6]?) h
  simp only [renderAuthError] at h6
  rw [String.data_append, List.getElem?_append, String.data_append,
    List.getElem?_append] at h6
  norm_num at h6
  exact absurd h6 (by decide)

lemma renderTransport_ne_decode (s m : String) :
    renderAuthError (.tokenTransport s) ≠ renderAuthError (.tokenDecode m) := by
  intro h
  have h6 := congrArg (fun u => u.data[6]?) h
  simp only [renderAuthError] at h6
  rw [String.data_append, List.getElem?_append, String.data_append,
    List.getElem?_append] at h6
  norm_num at h6
  exact absurd h6 (by decide)

/-- C9: when the cache is stale at both checks, a non-success
token-endpoint status yields the rendered `TokenHttpStatus` error, a
transport failure the rendered `TokenTransport` error, and a decode
failure on a success status the rendered `TokenDecode` error; the three
renderings are mutually distinguishable. -/
theorem claimC9 (leeway now0 now1 nowR : Nat) (cache : Option CachedToken)
    (net : SendResult)
    (h0 : tokenFresh leeway now0 cache = false)
    (h1 : tokenFresh leeway now1 cache = false) :
    (∀ status parse, net = .ok status parse → statusIsSuccess status = false →
      (bearer leeway now0 now1 nowR cache net).result =
        .error (renderAuthError (.tokenHttpStatus status)))
    ∧ (∀ msg, net = .err msg →
      (bearer leeway now0 now1 nowR cache net).result =
        .error (renderAuthError (.tokenTransport msg)))
    ∧ (∀ status msg, net = .ok status (.error msg) → statusIsSuccess status = true →
      (bearer leeway now0 now1 nowR cache net).result =
        .error (renderAuthError (.tokenDecode msg)))
    ∧ (∀ s m, renderAuthError (.tokenHttpStatus s) ≠ renderAuthError (.tokenTransport m))
    ∧ (∀ s m, renderAuthError (.tokenHttpStatus s) ≠ renderAuthError (.tokenDecode m))
    ∧ (∀ s m, renderAuthError (.tokenTransport s) ≠ renderAuthError (.tokenDecode m)) := by
  have hb : ∀ n, bearer leeway now0 now1 nowR cache n = refreshToken nowR cache n := by
    intro n
    cases cache with
    | none => rfl
    | some t =>
      have h0' : ¬(now0 + leeway < t.valid_until) := by
        simpa [tokenFresh] using h0
      have h1' : ¬(now1 + leeway < t.valid_until) := by
        simpa [tokenFresh] using h1
      simp [bearer, h0', h1']
  refine ⟨?_, ?_, ?_, ?_, ?_, ?_⟩
  · intro status parse hnet hsf
    subst hnet
    rw [hb]
    cases parse <;> simp [refreshToken, renderAuthError, hsf]
  · intro msg hnet
    subst hnet
    rw [hb]
    rfl
  · intro status msg hnet hst
    subst hnet
    rw [hb]
    simp [refreshToken, renderAuthError, hst]
  · exact renderHttp_ne_transport
  · exact renderHttp_ne_decode
  · exact renderTransport_ne_decode

/-- Witness for C9: a transport failure on an empty cache yields the
rendered `TokenTransport` error. -/
theorem claimC9_witness :
    (bearer 20 0 0 0 none (.err "connection refused")).result =
      .error (renderAuthError (.tokenTransport "connection refused")) :=
  (claimC9 20 0 0 0 none (.err "connection refused") (by decide)
    (by decide)).2.1 "connection refused" rfl

/-! ## C5: failed refresh -/

/-- A refresh attempt fails when the outbound result is a transport
error, a non-success status, or a success status whose body fails to
parse (src/main.rs lines 69-105, the non-storing branches). -/
def refreshFails (net : SendResult) : Bool :=
  match net with
  | .ok status parse =>
    if statusIsSuccess status then
      match parse with
      | .ok _ => false
      | .error _ => true
    else true
  | .err _ => true

lemma refreshToken_fail (nowR : Nat) (cache : Option CachedToken)
    (net : SendResult) (hf : refreshFails net = true) :
    (refreshToken nowR cache net).cache = cache ∧
    ∃ e, (refreshToken nowR cache net).result = .error e := by
  cases net with
  | ok status parse =>
    by_cases hs : statusIsSuccess status = true
    · cases parse with
      | ok tr => simp [refreshFails, hs] at hf
      | error e =>
        exact ⟨by simp [refreshToken, hs], "token json " ++ e,
          by simp [refreshToken, hs]⟩
    · exact ⟨by simp [refreshToken, hs], "token status " ++ toString status,
        by simp [refreshToken, hs]⟩
  | err e => exact ⟨rfl, "token http err: " ++ e, rfl⟩

/-- C5 as stated is false on the code: with `leeway = 20`, a cached token
`⟨"Bearer old", 15⟩` that is not yet expired at `now = 1`
(`1 < valid_until`) is NOT served after a failed refresh — the caller
receives the transport error, even though the failed refresh left the
cache cell unchanged. -/
theorem claimC5_counterexample :
    (1 : Nat) < (CachedToken.mk "Bearer old" 15).valid_until ∧
    (bearer 20 1 1 1 (some ⟨"Bearer old", 15⟩) (.err "connection refused")).cache =
      some ⟨"Bearer old", 15⟩ ∧
    (bearer 20 1 1 1 (some ⟨"Bearer old", 15⟩) (.err "connection refused")).result =
      .error "token http err: connection refused" ∧
    (bearer 20 1 1 1 (some ⟨"Bearer old", 15⟩) (.err "connection refused")).result ≠
      .ok "Bearer old" := by
  refine ⟨by decide, ?_, ?_, ?_⟩ <;> decide

/-- C5 (amended): a refresh attempt that fails leaves the cached token
cell unchanged and the failure is propagated to the caller that attempted
it; any value a call still returns is a cached `header_value` that passed
the `now + leeway < valid_until` check — a not-yet-expired token within
`leeway` of expiry is not served; in particular when no prior cached
token exists the caller receives the failure. -/
theorem claimC5 (leeway now0 now1 nowR : Nat) (cache : Option CachedToken)
    (net : SendResult) (hf : refreshFails net = true) :
    (bearer leeway now0 now1 nowR cache net).cache = cache
    ∧ (∀ v, (bearer leeway now0 now1 nowR cache net).result = .ok v →
        ∃ t, cache = some t ∧ v = t.header_value ∧
          (now0 + leeway < t.valid_until ∨ now1 + leeway < t.valid_until))
    ∧ ((bearer leeway now0 now1 nowR cache net).netCalled = true →
        ∃ e, (bearer leeway now0 now1 nowR cache net).result = .error e)
    ∧ (cache = none →
        ∃ e, (bearer leeway now0 now1 nowR cache net).result = .error e) := by
  cases cache with
  | none =>
    obtain ⟨hc, e, he⟩ := refreshToken_fail nowR none net hf
    have hb : bearer leeway now0 now1 nowR none net =
        refreshToken nowR none net := rfl
    refine ⟨by rw [hb]; exact hc, ?_, ?_, ?_⟩
    · intro v hv
      rw [hb, he] at hv
      cases hv
    · intro _
      rw [hb]
      exact ⟨e, he⟩
    · intro _
      rw [hb]
      exact ⟨e, he⟩
  | some t =>
    by_cases h0 : now0 + leeway < t.valid_until
    · refine ⟨by simp [bearer, h0], ?_, ?_, by simp⟩
      · intro v hv
        simp [bearer, h0] at hv
        exact ⟨t, rfl, hv.symm, Or.inl h0⟩
      · intro hnc
        simp [bearer, h0] at hnc
    · by_cases h1 : now1 + leeway < t.valid_until
      · refine ⟨by simp [bearer, h0, h1], ?_, ?_, by simp⟩
        · intro v hv
          simp [bearer, h0, h1] at hv
          exact ⟨t, rfl, hv.symm, Or.inr h1⟩
        · intro hnc
          simp [bearer, h0, h1] at hnc
      · have hb : bearer leeway now0 now1 nowR (some t) net =
            refreshToken nowR (some t) net := by simp [bearer, h0, h1]
        obtain ⟨hc, e, he⟩ := refreshToken_fail nowR (some t) net hf
        refine ⟨by rw [hb]; exact hc, ?_, ?_, ?_⟩
        · intro v hv
          rw [hb, he] at hv
          cases hv
        · intro _
          rw [hb]
          exact ⟨e, he⟩
        · intro hnone
          simp at hnone

/-- Witness for C5 (amended): empty cache, transport failure. -/
theorem claimC5_witness :
    (bearer 20 1 1 1 (none : Option CachedToken) (.err "refused")).cache = none
    ∧ (∀ v, (bearer 20 1 1 1 none (.err "refused")).result = .ok v →
        ∃ t, (none : Option CachedToken) = some t ∧ v = t.header_value ∧
          (1 + 20 < t.valid_until ∨ 1 + 20 < t.valid_until))
    ∧ ((bearer 20 1 1 1 none (.err "refused")).netCalled = true →
        ∃ e, (bearer 20 1 1 1 none (.err "refused")).result = .error e)
    ∧ ((none : Option CachedToken) = none →
        ∃ e, (bearer 20 1 1 1 none (.err "refused")).result = .error e) :=
  claimC5 20 1 1 1 none (.err "refused") (by decide)


/-! ## C2: outbound request headers -/

lemma mem_filterRequestHeaders {headers : Headers} {kv : String × String}
    (h : kv ∈ filterRequestHeaders headers) :
    kv ∈ headers ∧ asciiLower kv.1 ∉ requestExclusion := by
  have hm := List.mem_filter.mp h
  refine ⟨hm.1, ?_⟩
  simpa using hm.2

/-- C2: the outbound header set is exactly the inbound headers whose
ASCII-lower-cased names avoid the exclusion set, followed by the single
fresh `authorization` entry carrying the bearer value; no entry of the
result has lower-cased name `host`, and the only entry with lower-cased
name `authorization` is the fresh one. -/
theorem claimC2 (headers : Headers) (bearerValue : String) :
    forwardHeaders headers bearerValue =
      headers.filter (fun kv => !(requestExclusion.contains (asciiLower kv.1))) ++
        [("authorization", bearerValue)]
    ∧ (∀ kv, kv ∈ forwardHeaders headers bearerValue → asciiLower kv.1 ≠ "host")
    ∧ (forwardHeaders headers bearerValue).filter
        (fun kv => asciiLower kv.1 == "authorization") =
      [("authorization", bearerValue)] := by
  have hnoauth : ∀ kv, kv ∈ filterRequestHeaders headers →
      asciiLower kv.1 ≠ "authorization" := by
    intro kv hm heq
    exact (mem_filterRequestHeaders hm).2 (heq ▸ (by decide))
  have heq : forwardHeaders headers bearerValue =
      filterRequestHeaders headers ++ [("authorization", bearerValue)] := by
    unfold forwardHeaders headerMapInsert
    congr 1
    apply List.filter_eq_self.mpr
    intro kv hm
    simpa using hnoauth kv hm
  refine ⟨heq, ?_, ?_⟩
  · intro kv hm heqhost
    rw [heq] at hm
    rcases List.mem_append.mp hm with hl | hr
    · exact (mem_filterRequestHeaders hl).2 (heqhost ▸ (by decide))
    · simp only [List.mem_singleton] at hr
      rw [hr] at heqhost
      exact (by decide : asciiLower "authorization" ≠ "host") heqhost
  · have h1 : (filterRequestHeaders headers).filter
        (fun kv => asciiLower kv.1 == "authorization") = [] := by
      apply List.filter_eq_nil_iff.mpr
      intro kv hm
      simpa using hnoauth kv hm
    rw [heq, List.filter_append, h1, List.nil_append]
    apply List.filter_eq_self.mpr
    intro a ha
    simp only [List.mem_singleton] at ha
    subst ha
    show (asciiLower "authorization" == "authorization") = true
    decide

/-- Witness for C2 on the spec's own example header set. -/
theorem claimC2_witness :
    ∀ kv, kv ∈ forwardHeaders
        [("authorization", "Bearer xyz"), ("host", "client.example"),
         ("connection", "keep-alive"), ("x-custom", "1")] "Bearer fresh" →
      asciiLower kv.1 ≠ "host" :=
  (claimC2 [("authorization", "Bearer xyz"), ("host", "client.example"),
    ("connection", "keep-alive"), ("x-custom", "1")] "Bearer fresh").2.1

/-! ## C7: relayed response headers -/

/-- C7: the relayed response header set keeps exactly the upstream
response entries whose ASCII-lower-cased names avoid the hop-by-hop set
(multiplicity included), and `authorization` and `host` entries are
preserved, not stripped. -/
theorem claimC7 (headers : Headers) :
    (∀ kv, kv ∈ filterResponseHeaders headers ↔
      kv ∈ headers ∧ asciiLower kv.1 ∉ responseExclusion)
    ∧ (∀ kv : String × String, (filterResponseHeaders headers).count kv =
        if asciiLower kv.1 ∈ responseExclusion then 0 else headers.count kv)
    ∧ (∀ kv, kv ∈ headers → asciiLower kv.1 = "authorization" →
        kv ∈ filterResponseHeaders headers)
    ∧ (∀ kv, kv ∈ headers → asciiLower kv.1 = "host" →
        kv ∈ filterResponseHeaders headers) := by
  refine ⟨?_, ?_, ?_, ?_⟩
  · intro kv
    constructor
    · intro h
      have hm := List.mem_filter.mp h
      exact ⟨hm.1, by simpa using hm.2⟩
    · intro ⟨h1, h2⟩
      exact List.mem_filter.mpr ⟨h1, by simpa using h2⟩
  · intro kv
    by_cases h : asciiLower kv.1 ∈ responseExclusion
    · rw [if_pos h]
      apply List.count_eq_zero.mpr
      intro hm
      have := List.mem_filter.mp hm
      simp [h] at this
    · rw [if_neg h]
      apply List.count_filter
      simpa using h
  · intro kv hm hauth
    apply List.mem_filter.mpr
    refine ⟨hm, ?_⟩
    rw [hauth]
    decide
  · intro kv hm hhost
    apply List.mem_filter.mpr
    refine ⟨hm, ?_⟩
    rw [hhost]
    decide

/-- Witness for C7: an upstream `authorization` response header survives
the response-side filter. -/
theorem claimC7_witness :
    ("authorization", "Bearer keep") ∈ filterResponseHeaders
      [("connection", "close"), ("authorization", "Bearer keep")] :=
  (claimC7 [("connection", "close"), ("authorization", "Bearer keep")]).2.2.1
    ("authorization", "Bearer keep") (by decide) (by decide)

/-! ## C3: handler failure mapping and status passthrough -/

/-- C3: the handler maps an inbound body-read failure to `BAD_REQUEST`;
a bearer failure, a send failure, and a failure reading the upstream body
each to `BAD_GATEWAY`; and a successfully returned upstream response —
whatever its status — to that status, the filtered upstream headers and
the unmodified body. -/
theorem claimC3 (headers : Headers) (bodyRead : Except String String)
    (bearerRes : Except String String) (send : Except String UpstreamResp) :
    (∀ e, bodyRead = .error e →
      proxy headers bodyRead bearerRes send = .errResp BAD_REQUEST e)
    ∧ (∀ s e, bodyRead = .ok s → bearerRes = .error e →
      proxy headers bodyRead bearerRes send = .errResp BAD_GATEWAY e)
    ∧ (∀ s b bv e, bodyRead = .ok s → bearerRes = .ok b →
      headerValueFromStr b = some bv → send = .error e →
      proxy headers bodyRead bearerRes send = .errResp BAD_GATEWAY e)
    ∧ (∀ s b bv u e, bodyRead = .ok s → bearerRes = .ok b →
      headerValueFromStr b = some bv → send = .ok u → u.bodyBytes = .error e →
      proxy headers bodyRead bearerRes send = .errResp BAD_GATEWAY e)
    ∧ (∀ s b bv u body, bodyRead = .ok s → bearerRes = .ok b →
      headerValueFromStr b = some bv → send = .ok u → u.bodyBytes = .ok body →
      proxy headers bodyRead bearerRes send =
        .ok u.status (filterResponseHeaders u.headers) body) := by
  refine ⟨?_, ?_, ?_, ?_, ?_⟩
  · intro e he
    subst he
    rfl
  · intro s e hs he
    subst hs; subst he
    rfl
  · intro s b bv e hs hb hv he
    subst hs; subst hb; subst he
    simp [proxy, hv]
  · intro s b bv u e hs hb hv hu he
    subst hs; subst hb; subst hu
    simp [proxy, hv, he]
  · intro s b bv u body hs hb hv hu hbody
    subst hs; subst hb; subst hu
    simp [proxy, hv, hbody]

/-- Witness for C3: upstream 503 with body is relayed as 503 with that
body and filtered headers. -/
theorem claimC3_witness :
    proxy [("x-custom", "1")] (.ok "") (.ok "Bearer tok")
      (.ok ⟨503, [("server", "esplora")], .ok "overloaded"⟩) =
      .ok 503 (filterResponseHeaders [("server", "esplora")]) "overloaded" :=
  (claimC3 [("x-custom", "1")] (.ok "") (.ok "Bearer tok")
      (.ok ⟨503, [("server", "esplora")], .ok "overloaded"⟩)).2.2.2.2
    "" "Bearer tok" "Bearer tok" ⟨503, [("server", "esplora")], .ok "overloaded"⟩
    "overloaded" rfl rfl (by decide) rfl rfl

/-! ## C10: the header-value unwrap -/

lemma proxy_ne_panicked_of_valid (headers : Headers) (bodyS b bv : String)
    (send : Except String UpstreamResp)
    (hv : headerValueFromStr b = some bv) :
    proxy headers (.ok bodyS) (.ok b) send ≠ .panicked := by
  unfold proxy
  dsimp only
  rw [hv]
  cases send with
  | error e => simp
  | ok u =>
    cases hu : u.bodyBytes with
    | error e => simp [hu]
    | ok body => simp [hu]

/-- C10: the `unwrap()` of `HeaderValue::from_str(&bearer)` at
src/main.rs line 166 succeeds for every access token made of visible
ASCII characters (the full bearer string then contains only allowed
bytes), so the panic branch is unreachable for such tokens; but a token
containing a control character — here a newline — makes the handler
panic instead of producing an error response. -/
theorem claimC10 :
    (∀ token : String,
      (token.data.all fun c => decide (33 ≤ c.toNat) && decide (c.toNat ≤ 126)) = true →
      headerValueFromStr ("Bearer " ++ token) = some ("Bearer " ++ token)
      ∧ ∀ (headers : Headers) (bodyS : String) (send : Except String UpstreamResp),
          proxy headers (.ok bodyS) (.ok ("Bearer " ++ token)) send ≠ .panicked)
    ∧ headerValueFromStr "Bearer a\nb" = none
    ∧ (∀ (headers : Headers) (bodyS : String) (send : Except String UpstreamResp),
        proxy headers (.ok bodyS) (.ok "Bearer a\nb") send = .panicked) := by
  refine ⟨?_, ?_, ?_⟩
  · intro token htok
    have htok2 : token.data.all headerValueValidChar = true := by
      rw [List.all_eq_true] at htok ⊢
      intro c hc
      have hrange := htok c hc
      simp only [Bool.and_eq_true, decide_eq_true_eq] at hrange
      simp only [headerValueValidChar, Bool.or_eq_true, Bool.and_eq_true,
        decide_eq_true_eq, bne_iff_ne, ne_eq, beq_iff_eq]
      omega
    have hall : ("Bearer " ++ token).data.all headerValueValidChar = true := by
      rw [String.data_append, List.all_append,
        (by decide : "Bearer ".data.all headerValueValidChar = true), htok2]
      rfl
    have hsome : headerValueFromStr ("Bearer " ++ token) =
        some ("Bearer " ++ token) := by
      unfold headerValueFromStr
      rw [if_pos hall]
    exact ⟨hsome, fun headers bodyS send =>
      proxy_ne_panicked_of_valid headers bodyS _ _ send hsome⟩
  · decide
  · intro headers bodyS send
    unfold proxy
    dsimp only
    rw [show headerValueFromStr "Bearer a\nb" = none from by decide]

/-- Witness for C10: a plain alphanumeric token never panics, and the
newline token does. -/
theorem claimC10_witness :
    headerValueFromStr ("Bearer " ++ "tok123") = some ("Bearer " ++ "tok123")
    ∧ proxy [] (.ok "") (.ok "Bearer a\nb") (.error "x") = .panicked :=
  ⟨(claimC10.1 "tok123" (by decide)).1, claimC10.2.2 [] "" (.error "x")⟩

/-! ## C1: single-flight refresh under concurrency

An interleaved small-step model of N tasks, each executing the body of
`AppState::bearer` (src/main.rs lines 45-106) at a fixed instant `now`
against the shared state: the `RwLock<Option<CachedToken>>` cell, the
`refresh_lock` mutex, and a counter of outbound token requests.  The
token endpoint answers the `k`-th issued request with the successful
response `env k` (the claim concerns the case where the refresh
completes successfully). -/

/-- Control point of one task inside `AppState::bearer`: about to run
the lock-free fast-path check (line 46); blocked on `refresh_lock.lock()`
(line 52); holding the lock, about to re-check (line 54); holding the
lock with the outbound request in flight (line 68); or returned with a
result. -/
inductive PC where
  | start
  | waiting
  | locked
  | refreshing
  | done (r : Except String String)
deriving DecidableEq, Repr

/-- Global state of the interleaving: per-task control points, the shared
token cell, whether `refresh_lock` is held, and how many outbound token
requests have been issued. -/
structure CState (n : Nat) where
  threads : Fin n → PC
  token : Option CachedToken
  lock : Bool
  netCalls : Nat

/-- All tasks at the fast-path check, cache content `t0`, lock free, no
request issued. -/
def initState (n : Nat) (t0 : Option CachedToken) : CState n :=
  ⟨fun _ => .start, t0, false, 0⟩

/-- One atomic step of task `i`:

* `start`: the fast-path read (lines 46-50) — return the cached value if
  `now + leeway < valid_until`, else go wait on the `refresh_lock`;
* `waiting`: acquire the mutex when free (line 52), otherwise blocked;
* `locked`: the re-check under the lock (lines 54-58) — return the cached
  value and release the lock on a hit, else issue the outbound request
  (line 68), incrementing the request counter;
* `refreshing`: the response to the issued request arrives: store the new
  `CachedToken` built exactly as lines 76-83 do, release the lock, and
  return the new header value;
* `done`: no further steps. -/
def stepThread (env : Nat → TokenResp) (now leeway : Nat) {n : Nat}
    (i : Fin n) (s : CState n) : Option (CState n) :=
  match s.threads i with
  | .start =>
    match s.token with
    | some t =>
      if now + leeway < t.valid_until then
        some { s with
          threads := Function.update s.threads i (.done (.ok t.header_value)) }
      else
        some { s with threads := Function.update s.threads i .waiting }
    | none => some { s with threads := Function.update s.threads i .waiting }
  | .waiting =>
    if s.lock then none
    else some { s with
      threads := Function.update s.threads i .locked, lock := true }
  | .locked =>
    match s.token with
    | some t =>
      if now + leeway < t.valid_until then
        some { s with
          threads := Function.update s.threads i (.done (.ok t.header_value)),
          lock := false }
      else
        some { s with
          threads := Function.update s.threads i .refreshing,
          netCalls := s.netCalls + 1 }
    | none =>
      some { s with
        threads := Function.update s.threads i .refreshing,
        netCalls := s.netCalls + 1 }
  | .refreshing =>
    let tr := env (s.netCalls - 1)
    let header_value := "Bearer " ++ tr.access_token
    let valid_until := now + (Nat.max tr.expires_in 60 - 10)
    some { s with
      threads := Function.update s.threads i (.done (.ok header_value)),
      token := some ⟨header_value, valid_until⟩,
      lock := false }
  | .done _ => none

/-- The interleaving relation: some task takes one step. -/
def CStep (env : Nat → TokenResp) (now leeway : Nat) {n : Nat}
    (s s' : CState n) : Prop :=
  ∃ i, stepThread env now leeway i s = some s'

/-- Reachability under the interleaving relation. -/
def Reach (env : Nat → TokenResp) (now leeway : Nat) {n : Nat}
    (s s' : CState n) : Prop :=
  Relation.ReflTransGen (CStep env now leeway) s s'

/-- The token stored by the (single) successful refresh: the response to
request 0, packaged as lines 76-83 do. -/
def refreshedToken (env : Nat → TokenResp) (now : Nat) : CachedToken :=
  ⟨"Bearer " ++ (env 0).access_token, now + (Nat.max (env 0).expires_in 60 - 10)⟩

/-- Task `i` holds the `refresh_lock`. -/
def holder {n : Nat} (s : CState n) (i : Fin n) : Prop :=
  s.threads i = .locked ∨ s.threads i = .refreshing

/-- The inductive invariant of the interleaving, for an initial cache
content `t0` that fails the freshness check at `now`:

* at most one request is ever issued;
* the `refresh_lock` is held by at most one task, and is marked held
  exactly when some task is at `locked` or `refreshing`;
* before the first request, the cell still holds `t0` and no task has
  returned;
* after the request was issued, either it is still in flight (cell
  unchanged) or its response has been stored;
* every returned task returned the refreshed header value;
* a task with a request in flight means the request counter is 1. -/
structure SFInv (env : Nat → TokenResp) (now : Nat) (t0 : Option CachedToken)
    {n : Nat} (s : CState n) : Prop where
  calls_le : s.netCalls ≤ 1
  excl : ∀ i j, holder s i → holder s j → i = j
  lock_iff : s.lock = true ↔ ∃ i, holder s i
  zero_token : s.netCalls = 0 → s.token = t0
  zero_pc : s.netCalls = 0 → ∀ i,
    s.threads i = .start ∨ s.threads i = .waiting ∨ s.threads i = .locked
  one_state : s.netCalls = 1 →
    ((∃ i, s.threads i = .refreshing) ∧ s.token = t0) ∨
    ((∀ i, s.threads i ≠ .refreshing) ∧
      s.token = some (refreshedToken env now))
  done_ok : ∀ i r, s.threads i = .done r →
    r = .ok (refreshedToken env now).header_value
  refr_one : ∀ i, s.threads i = .refreshing → s.netCalls = 1

lemma SFInv_init (env : Nat → TokenResp) (now : Nat) (t0 : Option CachedToken)
    (n : Nat) : SFInv env now t0 (initState n t0) := by
  refine ⟨?_, ?_, ?_, ?_, ?_, ?_, ?_, ?_⟩
  · simp [initState]
  · intro i j hi hj
    simp [initState, holder] at hi
  · simp [initState, holder]
  · intro _
    rfl
  · intro _ i
    left
    rfl
  · intro h
    simp [initState] at h
  · intro i r h
    simp [initState] at h
  · intro i h
    simp [initState] at h

lemma holder_iff_update {n : Nat} (f : Fin n → PC) (i j : Fin n) (pc : PC)
    (tok : Option CachedToken) (lk : Bool) (nc : Nat) :
    holder ⟨Function.update f i pc, tok, lk, nc⟩ j ↔
      (j = i ∧ (pc = .locked ∨ pc = .refreshing)) ∨
      (j ≠ i ∧ (f j = .locked ∨ f j = .refreshing)) := by
  by_cases h : j = i <;> simp [holder, Function.update_apply, h]

lemma SFInv_set_waiting (env : Nat → TokenResp) (now : Nat)
    (t0 : Option CachedToken) {n : Nat} (i : Fin n) (s : CState n)
    (hinv : SFInv env now t0 s) (hpc : s.threads i = .start) :
    SFInv env now t0 { s with threads := Function.update s.threads i .waiting } := by
  refine ⟨hinv.calls_le, ?_, ?_, hinv.zero_token, ?_, ?_, ?_, ?_⟩
  · intro a b ha hb
    rw [holder_iff_update] at ha hb
    simp only [reduceCtorEq, or_self, and_false, false_or] at ha hb
    exact hinv.excl a b ha.2 hb.2
  · constructor
    · intro hl
      obtain ⟨j, hj⟩ := hinv.lock_iff.mp hl
      have hji : j ≠ i := by
        intro he
        rw [he] at hj
        rcases hj with h | h <;> rw [hpc] at h <;> cases h
      exact ⟨j, by rw [holder_iff_update]; exact Or.inr ⟨hji, hj⟩⟩
    · intro ⟨j, hj⟩
      rw [holder_iff_update] at hj
      simp only [reduceCtorEq, or_self, and_false, false_or] at hj
      exact hinv.lock_iff.mpr ⟨j, hj.2⟩
  · intro h0 j
    by_cases hji : j = i
    · subst hji
      right; left
      simp [Function.update_apply]
    · have := hinv.zero_pc h0 j
      simpa [Function.update_apply, hji] using this
  · intro h1
    rcases hinv.one_state h1 with ⟨⟨j, hj⟩, htok0⟩ | ⟨hall, htokS⟩
    · left
      have hji : j ≠ i := by
        intro he
        rw [he, hpc] at hj
        cases hj
      exact ⟨⟨j, by simp [Function.update_apply, hji, hj]⟩, htok0⟩
    · right
      refine ⟨?_, htokS⟩
      intro j
      by_cases hji : j = i
      · subst hji
        simp [Function.update_apply]
      · simpa [Function.update_apply, hji] using hall j
  · intro j r hj
    by_cases hji : j = i
    · subst hji
      simp [Function.update_apply] at hj
    · simp only [Function.update_apply, if_neg hji] at hj
      exact hinv.done_ok j r hj
  · intro j hj
    by_cases hji : j = i
    · subst hji
      simp [Function.update_apply] at hj
    · simp only [Function.update_apply, if_neg hji] at hj
      exact hinv.refr_one j hj

lemma fresh_state (env : Nat → TokenResp) (now leeway : Nat)
    (t0 : Option CachedToken) {n : Nat} (s : CState n) (t : CachedToken)
    (hstale : tokenFresh leeway now t0 = false)
    (hinv : SFInv env now t0 s)
    (htok : s.token = some t) (hf : now + leeway < t.valid_until) :
    s.netCalls = 1 ∧ (∀ j, s.threads j ≠ .refreshing) ∧
      t = refreshedToken env now := by
  have ht0stale : ∀ u, t0 = some u → ¬(now + leeway < u.valid_until) := by
    intro u h0 hfu
    rw [h0] at hstale
    simp [tokenFresh] at hstale
    omega
  have hnz : s.netCalls ≠ 0 := by
    intro h0
    exact ht0stale t ((hinv.zero_token h0).symm.trans htok) hf
  have hnc1 : s.netCalls = 1 := by
    have := hinv.calls_le
    omega
  rcases hinv.one_state hnc1 with ⟨_, htok0⟩ | ⟨hall, htokS⟩
  · exact absurd hf (ht0stale t (htok0.symm.trans htok))
  · have ht : t = refreshedToken env now := by
      rw [htok] at htokS
      exact Option.some.injEq .. ▸ htokS.symm ▸ rfl
    exact ⟨hnc1, hall, ht⟩

lemma SFInv_fast_done (env : Nat → TokenResp) (now leeway : Nat)
    (t0 : Option CachedToken) {n : Nat} (i : Fin n) (s : CState n)
    (t : CachedToken)
    (hstale : tokenFresh leeway now t0 = false)
    (hinv : SFInv env now t0 s) (hpc : s.threads i = .start)
    (htok : s.token = some t) (hf : now + leeway < t.valid_until) :
    SFInv env now t0
      { s with threads := Function.update s.threads i (.done (.ok t.header_value)) } := by
  obtain ⟨hnc1, hall, ht⟩ :=
    fresh_state env now leeway t0 s t hstale hinv htok hf
  refine ⟨hinv.calls_le, ?_, ?_, ?_, ?_, ?_, ?_, ?_⟩
  · intro a b ha hb
    rw [holder_iff_update] at ha hb
    simp only [reduceCtorEq, or_self, and_false, false_or] at ha hb
    exact hinv.excl a b ha.2 hb.2
  · constructor
    · intro hl
      obtain ⟨j, hj⟩ := hinv.lock_iff.mp hl
      have hji : j ≠ i := by
        intro he
        rw [he] at hj
        rcases hj with h | h <;> rw [hpc] at h <;> cases h
      exact ⟨j, by rw [holder_iff_update]; exact Or.inr ⟨hji, hj⟩⟩
    · intro ⟨j, hj⟩
      rw [holder_iff_update] at hj
      simp only [reduceCtorEq, or_self, and_false, false_or] at hj
      exact hinv.lock_iff.mpr ⟨j, hj.2⟩
  · intro h0
    rw [hnc1] at h0
    cases h0
  · intro h0
    rw [hnc1] at h0
    cases h0
  · intro _
    right
    refine ⟨?_, by rw [htok, ht]⟩
    intro j
    by_cases hji : j = i
    · subst hji
      simp [Function.update_apply]
    · simpa [Function.update_apply, hji] using hall j
  · intro j r hj
    by_cases hji : j = i
    · subst hji
      simp only [Function.update_apply, if_pos rfl] at hj
      cases hj
      rw [ht]
    · simp only [Function.update_apply, if_neg hji] at hj
      exact hinv.done_ok j r hj
  · intro j _
    exact hnc1

lemma SFInv_recheck_done (env : Nat → TokenResp) (now leeway : Nat)
    (t0 : Option CachedToken) {n : Nat} (i : Fin n) (s : CState n)
    (t : CachedToken)
    (hstale : tokenFresh leeway now t0 = false)
    (hinv : SFInv env now t0 s) (hpc : s.threads i = .locked)
    (htok : s.token = some t) (hf : now + leeway < t.valid_until) :
    SFInv env now t0
      { s with threads := Function.update s.threads i (.done (.ok t.header_value)),
               lock := false } := by
  obtain ⟨hnc1, hall, ht⟩ :=
    fresh_state env now leeway t0 s t hstale hinv htok hf
  have hnone : ∀ a, ¬ holder
      (⟨Function.update s.threads i (.done (.ok t.header_value)),
        s.token, false, s.netCalls⟩ : CState n) a := by
    intro a ha
    rw [holder_iff_update] at ha
    simp only [reduceCtorEq, or_self, and_false, false_or] at ha
    exact ha.1 (hinv.excl a i ha.2 (Or.inl hpc))
  refine ⟨hinv.calls_le, ?_, ?_, ?_, ?_, ?_, ?_, ?_⟩
  · intro a b ha hb
    exact absurd ha (hnone a)
  · constructor
    · intro hl
      cases hl
    · intro ⟨j, hj⟩
      exact absurd hj (hnone j)
  · intro h0
    rw [hnc1] at h0
    cases h0
  · intro h0
    rw [hnc1] at h0
    cases h0
  · intro _
    right
    refine ⟨?_, by rw [htok, ht]⟩
    intro j
    by_cases hji : j = i
    · subst hji
      simp [Function.update_apply]
    · simpa [Function.update_apply, hji] using hall j
  · intro j r hj
    by_cases hji : j = i
    · subst hji
      simp only [Function.update_apply, if_pos rfl] at hj
      cases hj
      rw [ht]
    · simp only [Function.update_apply, if_neg hji] at hj
      exact hinv.done_ok j r hj
  · intro j _
    exact hnc1

lemma SFInv_acquire (env : Nat → TokenResp) (now : Nat)
    (t0 : Option CachedToken) {n : Nat} (i : Fin n) (s : CState n)
    (hinv : SFInv env now t0 s) (hpc : s.threads i = .waiting)
    (hlock : s.lock = false) :
    SFInv env now t0
      { s with threads := Function.update s.threads i .locked, lock := true } := by
  have hnoholder : ∀ j, ¬ holder s j := by
    intro j hj
    have := hinv.lock_iff.mpr ⟨j, hj⟩
    rw [hlock] at this
    cases this
  refine ⟨hinv.calls_le, ?_, ?_, hinv.zero_token, ?_, ?_, ?_, ?_⟩
  · intro a b ha hb
    rw [holder_iff_update] at ha hb
    have ha' : a = i := by
      rcases ha with ⟨h, _⟩ | ⟨_, h⟩
      · exact h
      · exact absurd h (hnoholder a)
    have hb' : b = i := by
      rcases hb with ⟨h, _⟩ | ⟨_, h⟩
      · exact h
      · exact absurd h (hnoholder b)
    rw [ha', hb']
  · constructor
    · intro _
      exact ⟨i, by rw [holder_iff_update]; exact Or.inl ⟨rfl, Or.inl rfl⟩⟩
    · intro _
      rfl
  · intro h0 j
    by_cases hji : j = i
    · subst hji
      right; right
      simp [Function.update_apply]
    · have := hinv.zero_pc h0 j
      simpa [Function.update_apply, hji] using this
  · intro h1
    rcases hinv.one_state h1 with ⟨⟨j, hj⟩, htok0⟩ | ⟨hall, htokS⟩
    · left
      have hji : j ≠ i := by
        intro he
        rw [he, hpc] at hj
        cases hj
      exact ⟨⟨j, by simp [Function.update_apply, hji, hj]⟩, htok0⟩
    · right
      refine ⟨?_, htokS⟩
      intro j
      by_cases hji : j = i
      · subst hji
        simp [Function.update_apply]
      · simpa [Function.update_apply, hji] using hall j
  · intro j r hj
    by_cases hji : j = i
    · subst hji
      simp [Function.update_apply] at hj
    · simp only [Function.update_apply, if_neg hji] at hj
      exact hinv.done_ok j r hj
  · intro j hj
    by_cases hji : j = i
    · subst hji
      simp [Function.update_apply] at hj
    · simp only [Function.update_apply, if_neg hji] at hj
      exact hinv.refr_one j hj

lemma SFInv_issue (env : Nat → TokenResp) (now leeway : Nat)
    (t0 : Option CachedToken) {n : Nat} (i : Fin n) (s : CState n)
    (hlee : leeway < 50)
    (hinv : SFInv env now t0 s) (hpc : s.threads i = .locked)
    (hstaleNow : tokenFresh leeway now s.token = false) :
    SFInv env now t0
      { s with threads := Function.update s.threads i .refreshing,
               netCalls := s.netCalls + 1 } := by
  have hfreshR : now + leeway < (refreshedToken env now).valid_until := by
    have hmax : 60 ≤ Nat.max (env 0).expires_in 60 := Nat.le_max_right _ _
    simp only [refreshedToken]
    omega
  have hnc0 : s.netCalls = 0 := by
    rcases Nat.lt_or_ge s.netCalls 1 with h | h
    · omega
    · exfalso
      have h1 : s.netCalls = 1 := by
        have := hinv.calls_le
        omega
      rcases hinv.one_state h1 with ⟨⟨j, hj⟩, _⟩ | ⟨_, htokS⟩
      · have hji : i = j := hinv.excl i j (Or.inl hpc) (Or.inr hj)
        rw [← hji, hpc] at hj
        cases hj
      · rw [htokS] at hstaleNow
        simp [tokenFresh] at hstaleNow
        omega
  have hlocktrue : s.lock = true := hinv.lock_iff.mpr ⟨i, Or.inl hpc⟩
  refine ⟨?_, ?_, ?_, ?_, ?_, ?_, ?_, ?_⟩
  · show s.netCalls + 1 ≤ 1
    omega
  · intro a b ha hb
    rw [holder_iff_update] at ha hb
    have ha' : a = i := by
      rcases ha with ⟨h, _⟩ | ⟨hne, h⟩
      · exact h
      · exact absurd (hinv.excl a i h (Or.inl hpc)) hne
    have hb' : b = i := by
      rcases hb with ⟨h, _⟩ | ⟨hne, h⟩
      · exact h
      · exact absurd (hinv.excl b i h (Or.inl hpc)) hne
    rw [ha', hb']
  · constructor
    · intro _
      exact ⟨i, by rw [holder_iff_update]; exact Or.inl ⟨rfl, Or.inr rfl⟩⟩
    · intro _
      exact hlocktrue
  · intro h0
    simp at h0
  · intro h0
    simp at h0
  · intro _
    left
    refine ⟨⟨i, by simp [Function.update_apply]⟩, hinv.zero_token hnc0⟩
  · intro j r hj
    by_cases hji : j = i
    · subst hji
      simp [Function.update_apply] at hj
    · simp only [Function.update_apply, if_neg hji] at hj
      exact hinv.done_ok j r hj
  · intro j _
    show s.netCalls + 1 = 1
    omega

lemma SFInv_complete (env : Nat → TokenResp) (now : Nat)
    (t0 : Option CachedToken) {n : Nat} (i : Fin n) (s : CState n)
    (hinv : SFInv env now t0 s) (hpc : s.threads i = .refreshing) :
    SFInv env now t0
      { s with
        threads := Function.update s.threads i
          (.done (.ok ("Bearer " ++ (env (s.netCalls - 1)).access_token))),
        token := some ⟨"Bearer " ++ (env (s.netCalls - 1)).access_token,
          now + (Nat.max (env (s.netCalls - 1)).expires_in 60 - 10)⟩,
        lock := false } := by
  have hnc1 : s.netCalls = 1 := hinv.refr_one i hpc
  have henv : env (s.netCalls - 1) = env 0 := by rw [hnc1]
  have hnone : ∀ a, ¬ holder
      (⟨Function.update s.threads i
          (.done (.ok ("Bearer " ++ (env (s.netCalls - 1)).access_token))),
        some ⟨"Bearer " ++ (env (s.netCalls - 1)).access_token,
          now + (Nat.max (env (s.netCalls - 1)).expires_in 60 - 10)⟩,
        false, s.netCalls⟩ : CState n) a := by
    intro a ha
    rw [holder_iff_update] at ha
    simp only [reduceCtorEq, or_self, and_false, false_or] at ha
    exact ha.1 (hinv.excl a i ha.2 (Or.inr hpc))
  refine ⟨hinv.calls_le, ?_, ?_, ?_, ?_, ?_, ?_, ?_⟩
  · intro a b ha hb
    exact absurd ha (hnone a)
  · constructor
    · intro hl
      cases hl
    · intro ⟨j, hj⟩
      exact absurd hj (hnone j)
  · intro h0
    rw [hnc1] at h0
    cases h0
  · intro h0
    rw [hnc1] at h0
    cases h0
  · intro _
    right
    constructor
    · intro j
      by_cases hji : j = i
      · subst hji
        simp [Function.update_apply]
      · simp only [Function.update_apply, if_neg hji]
        intro hj
        exact hji (hinv.excl j i (Or.inr hj) (Or.inr hpc))
    · show some _ = some (refreshedToken env now)
      rw [henv]
      rfl
  · intro j r hj
    by_cases hji : j = i
    · subst hji
      simp only [Function.update_apply, if_pos rfl] at hj
      cases hj
      rw [henv]
      rfl
    · simp only [Function.update_apply, if_neg hji] at hj
      exact hinv.done_ok j r hj
  · intro j _
    exact hnc1

lemma SFInv_step (env : Nat → TokenResp) (now leeway : Nat)
    (t0 : Option CachedToken) {n : Nat} (i : Fin n) (s s' : CState n)
    (hstale : tokenFresh leeway now t0 = false) (hlee : leeway < 50)
    (hinv : SFInv env now t0 s)
    (hstep : stepThread env now leeway i s = some s') :
    SFInv env now t0 s' := by
  unfold stepThread at hstep
  cases hpc : s.threads i with
  | start =>
    rw [hpc] at hstep
    dsimp only at hstep
    cases htok : s.token with
    | some t =>
      rw [htok] at hstep
      dsimp only at hstep
      by_cases hf : now + leeway < t.valid_until
      · rw [if_pos hf] at hstep
        injection hstep with hs
        subst hs
        rw [← htok]
        exact SFInv_fast_done env now leeway t0 i s t hstale hinv hpc htok hf
      · rw [if_neg hf] at hstep
        injection hstep with hs
        subst hs
        rw [← htok]
        exact SFInv_set_waiting env now t0 i s hinv hpc
    | none =>
      rw [htok] at hstep
      dsimp only at hstep
      injection hstep with hs
      subst hs
      rw [← htok]
      exact SFInv_set_waiting env now t0 i s hinv hpc
  | waiting =>
    rw [hpc] at hstep
    dsimp only at hstep
    by_cases hl : s.lock = true
    · rw [if_pos hl] at hstep
      cases hstep
    · rw [if_neg hl] at hstep
      injection hstep with hs
      subst hs
      exact SFInv_acquire env now t0 i s hinv hpc (by simpa using hl)
  | locked =>
    rw [hpc] at hstep
    dsimp only at hstep
    cases htok : s.token with
    | some t =>
      rw [htok] at hstep
      dsimp only at hstep
      by_cases hf : now + leeway < t.valid_until
      · rw [if_pos hf] at hstep
        injection hstep with hs
        subst hs
        rw [← htok]
        exact SFInv_recheck_done env now leeway t0 i s t hstale hinv hpc htok hf
      · rw [if_neg hf] at hstep
        injection hstep with hs
        subst hs
        rw [← htok]
        exact SFInv_issue env now leeway t0 i s hlee hinv hpc
          (by rw [htok]; simp [tokenFresh]; omega)
    | none =>
      rw [htok] at hstep
      dsimp only at hstep
      injection hstep with hs
      subst hs
      rw [← htok]
      exact SFInv_issue env now leeway t0 i s hlee hinv hpc
        (by rw [htok]; rfl)
  | refreshing =>
    rw [hpc] at hstep
    dsimp only at hstep
    injection hstep with hs
    subst hs
    exact SFInv_complete env now t0 i s hinv hpc
  | done r =>
    rw [hpc] at hstep
    cases hstep

lemma SFInv_reach (env : Nat → TokenResp) (now leeway : Nat)
    (t0 : Option CachedToken) {n : Nat} (s s' : CState n)
    (hstale : tokenFresh leeway now t0 = false) (hlee : leeway < 50)
    (hinv : SFInv env now t0 s)
    (hreach : Reach env now leeway s s') : SFInv env now t0 s' := by
  induction hreach with
  | refl => exact hinv
  | tail _ hstep ih =>
    obtain ⟨i, hi⟩ := hstep
    exact SFInv_step env now leeway t0 i _ _ hstale hlee ih hi

/-- C1: in every interleaving of N ≥ 1 concurrent `bearer` calls started
while the cached token fails the freshness check (empty or expired
cache), with the token endpoint answering successfully, once every task
has returned, exactly one outbound token request was issued and every
task returned the same header value — the one built from the single
response.  (`leeway < 50` holds for the program's `leeway = 20`; it makes
the freshly stored token pass the re-check, which is what lets every
other waiter observe the first holder's result instead of issuing its
own request.) -/
theorem claimC1 (env : Nat → TokenResp) (now leeway : Nat)
    (t0 : Option CachedToken) (n : Nat) (s : CState n)
    (hstale : tokenFresh leeway now t0 = false) (hlee : leeway < 50)
    (hn : 0 < n)
    (hreach : Reach env now leeway (initState n t0) s)
    (hdone : ∀ i, ∃ r, s.threads i = .done r) :
    s.netCalls = 1 ∧
    ∀ i r, s.threads i = .done r →
      r = .ok ("Bearer " ++ (env 0).access_token) := by
  have hinv := SFInv_reach env now leeway t0 _ s hstale hlee
    (SFInv_init env now t0 n) hreach
  have hnz : s.netCalls ≠ 0 := by
    intro h0
    obtain ⟨r, hr⟩ := hdone ⟨0, hn⟩
    rcases hinv.zero_pc h0 ⟨0, hn⟩ with h | h | h <;> rw [hr] at h <;> cases h
  refine ⟨?_, ?_⟩
  · have := hinv.calls_le
    omega
  · intro i r hr
    exact hinv.done_ok i r hr

/-- Concrete single-task execution used to witness C1: fast-path miss,
lock acquisition, re-check miss issuing the one request, response stored. -/
def sfZ : Fin 1 := ⟨0, Nat.zero_lt_one⟩

def sfEnv : Nat → TokenResp := fun _ => ⟨"tok", 300⟩

def sfS0 : CState 1 := initState 1 none

def sfS1 : CState 1 :=
  { sfS0 with threads := Function.update sfS0.threads sfZ .waiting }

def sfS2 : CState 1 :=
  { sfS1 with threads := Function.update sfS1.threads sfZ .locked, lock := true }

def sfS3 : CState 1 :=
  { sfS2 with threads := Function.update sfS2.threads sfZ .refreshing,
              netCalls := sfS2.netCalls + 1 }

def sfS4 : CState 1 :=
  { sfS3 with
    threads := Function.update sfS3.threads sfZ
      (.done (.ok ("Bearer " ++ (sfEnv (sfS3.netCalls - 1)).access_token))),
    token := some ⟨"Bearer " ++ (sfEnv (sfS3.netCalls - 1)).access_token,
      0 + (Nat.max (sfEnv (sfS3.netCalls - 1)).expires_in 60 - 10)⟩,
    lock := false }

/-- Witness for C1 on the concrete execution. -/
theorem claimC1_witness :
    sfS4.netCalls = 1 ∧
    ∀ i r, sfS4.threads i = .done r →
      r = .ok ("Bearer " ++ (sfEnv 0).access_token) :=
  claimC1 sfEnv 0 20 none 1 sfS4 rfl (by omega) Nat.zero_lt_one
    (Relation.ReflTransGen.tail
      (Relation.ReflTransGen.tail
        (Relation.ReflTransGen.tail
          (Relation.ReflTransGen.tail Relation.ReflTransGen.refl
            ⟨sfZ, rfl⟩)
          ⟨sfZ, rfl⟩)
        ⟨sfZ, rfl⟩)
      ⟨sfZ, rfl⟩)
    (fun i => ⟨.ok ("Bearer " ++ (sfEnv (sfS3.netCalls - 1)).access_token),
      by rw [Subsingleton.elim i sfZ]; rfl⟩)
